import Mathlib

/-!
Shallow embedding of the crafting-domain HTN compiler and heuristics
(src/P4/src/autoHTN.py), together with theorems settling the spec claims.

Modelling conventions:
* Python dictionaries become association lists `List (Item × Int)`; dictionary
  key uniqueness becomes a `Nodup` hypothesis on the key projection.
* The mutable per-agent state (`state.time[ID]`, `getattr(state, item)[ID]`)
  becomes a record of total functions; in-place mutation becomes building a new
  record, and an operator returns both its Python return value (`Option PState`,
  `none` for Python `False`) and the state object as it stands after the call,
  so that absence of partial mutation on failure is an actual theorem.
* Task tuples `('have_enough', ID, item, num)` etc. become an inductive type
  compared by structural (decidable) equality, exactly as Python tuples are.
-/

namespace AutoHTN

abbrev Item := String
abbrev AgentID := String

/-- A recipe (one entry of `data['Recipes']`): `Produces` is always present,
`Requires` and `Consumes` are optional keys (the Python code tests
`'Requires' in rule`). -/
structure Rule where
  produces : List (Item × Int)
  requires : Option (List (Item × Int))
  consumes : Option (List (Item × Int))
  time : Int

/-- The mutable planning state: `time a` models `state.time[a]` and
`count i a` models `getattr(state, i)[a]`. -/
structure PState where
  time : AgentID → Int
  count : Item → AgentID → Int

/-- Point update of a count table: `getattr(state, i)[a] = v`. -/
def updCount (c : Item → AgentID → Int) (i : Item) (a : AgentID) (v : Int) :
    Item → AgentID → Int :=
  fun j b => if j = i ∧ b = a then v else c j b

/-- The quantity an association list (a Python dict) holds for key `i`,
`0` when the key is absent. -/
def amtOf (entries : List (Item × Int)) (i : Item) : Int :=
  match entries.find? (fun p => p.1 = i) with
  | some p => p.2
  | none => 0

/-- `for item, num in entries.items(): getattr(state, item)[ID] = f(old, num)`,
the shape of both mutation loops in `make_operator` (`f` is `-` for the
Consumes loop and `+` for the Produces loop). -/
def applyAll (f : Int → Int → Int) (entries : List (Item × Int)) (ID : AgentID)
    (c : Item → AgentID → Int) : Item → AgentID → Int :=
  match entries with
  | [] => c
  | (j, q) :: rest => applyAll f rest ID (updCount c j ID (f (c j ID) q))

/-- `make_operator(rule)`: the compiled primitive action. Returns the Python
return value (`none` for `False`, `some s` for the state) paired with the
state object as it stands when the call returns. The three precondition
checks run, in source order, before any mutation. -/
def make_operator (rule : Rule) (ID : AgentID) (s : PState) :
    Option PState × PState :=
  if s.time ID < rule.time then (none, s)
  else if (rule.requires.getD []).any (fun p => decide (s.count p.1 ID < p.2)) then (none, s)
  else if (rule.consumes.getD []).any (fun p => decide (s.count p.1 ID < p.2)) then (none, s)
  else
    let c1 := applyAll (· - ·) (rule.consumes.getD []) ID s.count
    let c2 := applyAll (· + ·) rule.produces ID c1
    let s' : PState :=
      { time := fun a => if a = ID then s.time ID - rule.time else s.time a
        count := c2 }
    (some s', s')

/-- Task descriptors: the tuples `('have_enough', ID, item, num)`,
`('execute_production', ID, item, num)`, `('produce', ID, item)` and
`('op_…', ID)` used by the grammar. Tuple equality is structural equality. -/
inductive Task where
  | have_enough (ID : AgentID) (item : Item) (num : Int)
  | execute_production (ID : AgentID) (item : Item) (num : Int)
  | produce (ID : AgentID) (item : Item)
  | op (name : String) (ID : AgentID)
deriving DecidableEq, Repr

/-- `execute_production(state, ID, item, num)`: the production bridge method
(the state argument is received and ignored by the Python function). -/
def execute_production (s : PState) (ID : AgentID) (item : Item) (num : Int) :
    List Task :=
  [Task.produce ID item, Task.have_enough ID item num]

/-- The hard-coded durable-good list in `make_method`. -/
def durables : List Item :=
  ["bench", "furnace", "iron_pickaxe", "stone_pickaxe", "wooden_pickaxe"]

/-- `make_method(name, rule)`: the compiled production method for one recipe.
Short-circuits to `[]` when some produced item is in the hard-coded durable
list and already held in positive quantity; otherwise emits a `have_enough`
subtask per Requires entry, then per Consumes entry, then the primitive
action task. -/
def make_method (name : String) (rule : Rule) (ID : AgentID) (s : PState) :
    List Task :=
  if rule.produces.any (fun p => decide (p.1 ∈ durables) && decide (0 < s.count p.1 ID)) then
    []
  else
    ((rule.requires.getD []).map fun p => Task.have_enough ID p.1 p.2)
      ++ ((rule.consumes.getD []).map fun p => Task.have_enough ID p.1 p.2)
      ++ [Task.op ("op_" ++ name.replace " " "_") ID]

/-- `heuristic(state, curr_task, tasks, plan, depth, calling_stack)` from
`add_heuristic(data, ID)`: `ID` is the closure agent, the `tasks` and `plan`
arguments are received and unused. For `have_enough` / `execute_production`
tasks the Python `len(curr_task) == 4` guard always holds, so it is not
represented. -/
def heuristic (ID : AgentID) (s : PState) (curr_task : Task)
    (tasks plan : List Task) (depth : Nat) (calling_stack : List Task) : Bool :=
  if s.time ID < 0 then true
  else if 400 < depth then true
  else
    match curr_task with
    | Task.have_enough _ item num =>
        if curr_task ∈ calling_stack then
          if num ≤ s.count item ID then false
          else if max (num * 3) 10 < (calling_stack.count curr_task : Int) then true
          else false
        else false
    | Task.execute_production _ item num =>
        if curr_task ∈ calling_stack then
          if num ≤ s.count item ID then false
          else if max (num * 3) 10 < (calling_stack.count curr_task : Int) then true
          else false
        else false
    | _ => false

/-- The inner readiness scan of `reorder_methods`: every `have_enough`
subtask must already be satisfied by current held counts. -/
def isReady (ID : AgentID) (s : PState) (subtasks : List Task) : Bool :=
  subtasks.all fun t =>
    match t with
    | Task.have_enough _ item num => decide (num ≤ s.count item ID)
    | _ => true

/-- The `for method in methods:` loop of `reorder_methods`: partitions the
candidates into the `ready` and `not_ready` accumulators, in input order.
`getSub m s t` models the external helper `pyhop.get_subtasks(m, s, t)`,
with `none` for its `False` result; a `none` result hits the `continue`
statement, so the method lands in neither accumulator. -/
def classifyMethods {M : Type} (ID : AgentID) (s : PState) (curr_task : Task)
    (getSub : M → PState → Task → Option (List Task)) :
    List M → List M × List M
  | [] => ([], [])
  | m :: rest =>
    let p := classifyMethods ID s curr_task getSub rest
    match getSub m s curr_task with
    | none => p
    | some subtasks =>
        if isReady ID s subtasks then (m :: p.1, p.2) else (p.1, m :: p.2)

/-- `reorder_methods(state, curr_task, tasks, plan, depth, calling_stack,
methods)` from `define_ordering(data, ID)`: `ID` is the closure agent; the
`tasks`, `plan`, `depth` and `calling_stack` arguments are received and
unused. -/
def reorder_methods {M : Type} (ID : AgentID) (s : PState) (curr_task : Task)
    (tasks plan : List Task) (depth : Nat) (calling_stack : List Task)
    (getSub : M → PState → Task → Option (List Task)) (methods : List M) :
    List M :=
  if methods.length ≤ 1 then methods
  else
    (classifyMethods ID s curr_task getSub methods).1
      ++ (classifyMethods ID s curr_task getSub methods).2

/-- A candidate method is computable when the subtask preview helper yields a
subtask list rather than the failure indicator. -/
def methodComputable {M : Type} (s : PState) (curr_task : Task)
    (getSub : M → PState → Task → Option (List Task)) (m : M) : Bool :=
  (getSub m s curr_task).isSome

/-- A candidate method is ready when its subtask list is computable and every
`have_enough` subtask in it is already satisfied. -/
def methodReady {M : Type} (ID : AgentID) (s : PState) (curr_task : Task)
    (getSub : M → PState → Task → Option (List Task)) (m : M) : Bool :=
  match getSub m s curr_task with
  | some subtasks => isReady ID s subtasks
  | none => false

/-- The `Problem` section of the domain file. -/
structure Problem where
  initial : List (Item × Int)
  timeBudget : Int
  goal : List (Item × Int)

/-- The domain file shape consumed by the compiler: `Items`, `Tools`,
`Recipes`, `Problem`. -/
structure Data where
  items : List Item
  tools : List Item
  recipes : List (String × Rule)
  problem : Problem

/-- The state built by `set_up_state(data, ID)` for the single agent `ID`:
the remaining time and the association list of per-item count entries
(`count` holds key `i` exactly when the Python state object has attribute
`i`). -/
structure SetupState where
  time : Int
  count : List (Item × Int)

/-- `getattr(state, i)[ID] = v` on the setup state: succeeds only when the
attribute `i` already exists, and then rewrites its entry. -/
def setEntry (l : List (Item × Int)) (i : Item) (v : Int) :
    Option (List (Item × Int)) :=
  if l.any (fun p => p.1 = i) then
    some (l.map fun p => if p.1 = i then (i, v) else p)
  else none

/-- The `for item, num in data['Problem']['Initial'].items():` loop of
`set_up_state`; fails (Python `AttributeError`) when an initial-inventory
item was never declared. -/
def applyInitial : List (Item × Int) → List (Item × Int) →
    Option (List (Item × Int))
  | [], st => some st
  | (i, n) :: rest, st =>
    match setEntry st i n with
    | none => none
    | some st' => applyInitial rest st'

/-- `set_up_state(data, ID)`: time from the problem's budget; one entry per
name in `set(Items) | set(Tools)`, initialised to `0`; then the initial
inventory is written over those entries. -/
def set_up_state (data : Data) : Option SetupState :=
  let base := ((data.items ++ data.tools).dedup).map fun i => (i, (0 : Int))
  match applyInitial data.problem.initial base with
  | none => none
  | some cnt => some { time := data.problem.timeBudget, count := cnt }

/-- All item names a rule mentions, in any of its three mappings. -/
def ruleItems (r : Rule) : List Item :=
  r.produces.map Prod.fst ++ (r.requires.getD []).map Prod.fst
    ++ (r.consumes.getD []).map Prod.fst

/-- Every item/tool name referenced anywhere in the recipes, the goals, or
the initial inventory. -/
def referencedItems (data : Data) : List Item :=
  ((data.recipes.map fun p => ruleItems p.2).foldr (· ++ ·) [])
    ++ data.problem.goal.map Prod.fst
    ++ data.problem.initial.map Prod.fst

/-- Association-list lookup: the value stored for key `i`, when present. -/
def lookupL (l : List (Item × Int)) (i : Item) : Option Int :=
  (l.find? fun p => p.1 = i).map Prod.snd

/-- Whether the setup state carries an entry for item `i`, and its value. -/
def lookupCount (st : SetupState) (i : Item) : Option Int :=
  lookupL st.count i

/-! ### Concrete inputs used by the witnesses and counterexamples -/

/-- A concrete recipe: 1 wood → 4 plank, needs a bench present, time 1. -/
def rule0 : Rule :=
  { produces := [("plank", 4)], requires := some [("bench", 1)]
    consumes := some [("wood", 1)], time := 1 }

/-- A state holding 2 wood and 1 bench, with 10 time. -/
def s0 : PState :=
  { time := fun _ => 10
    count := fun i _ => if i = "wood" then 2 else if i = "bench" then 1 else 0 }

/-- A state holding 1 bench but no wood, with 10 time. -/
def s2 : PState :=
  { time := fun _ => 10
    count := fun i _ => if i = "bench" then 1 else 0 }

/-- A state with empty inventory and 10 time. -/
def sHeu : PState := { time := fun _ => 10, count := fun _ _ => 0 }

/-- A concrete goal-check task. -/
def t3 : Task := Task.have_enough "agent" "wood" 1

/-- A calling stack repeating `t3` twelve times. -/
def stack3 : List Task := List.replicate 12 t3

/-- A subtask previewer under which method `0` is uncomputable (yields the
failure indicator) and every other method yields the empty subtask list. -/
def getSub4 : Nat → PState → Task → Option (List Task) :=
  fun m _ _ => if m = 0 then none else some []

/-- A subtask previewer under which every method yields the empty subtask
list (hence is ready). -/
def getSub9 : Nat → PState → Task → Option (List Task) :=
  fun _ _ _ => some []

/-- A bench recipe: 4 plank → 1 bench. -/
def ruleBench : Rule :=
  { produces := [("bench", 1)], requires := none
    consumes := some [("plank", 4)], time := 1 }

/-- A state already holding a bench. -/
def sBench : PState :=
  { time := fun _ => 10
    count := fun i _ => if i = "bench" then 1 else 0 }

/-- A plank recipe: 1 wood → 4 plank, no tool needed. -/
def rulePlank : Rule :=
  { produces := [("plank", 4)], requires := none
    consumes := some [("wood", 1)], time := 1 }

/-- A state already holding 5 plank (and nothing else). -/
def sPlank : PState :=
  { time := fun _ => 10
    count := fun i _ => if i = "plank" then 5 else 0 }

/-- A domain whose goal references an item declared neither in Items nor in
Tools. -/
def data0 : Data :=
  { items := [], tools := [], recipes := []
    problem := { initial := [], timeBudget := 10, goal := [("wood", 1)] } }

/-- A well-formed concrete domain: every referenced name is declared. -/
def data1 : Data :=
  { items := ["wood", "plank"], tools := ["bench"]
    recipes := [("punch wood", { produces := [("wood", 1)], requires := none
                                 consumes := none, time := 1 })]
    problem := { initial := [("wood", 2)], timeBudget := 100
                 goal := [("plank", 4)] } }

/-! ### Helper lemmas -/

theorem amtOf_nil (i : Item) : amtOf [] i = 0 := rfl

theorem amtOf_cons (j : Item) (q : Int) (rest : List (Item × Int)) (i : Item) :
    amtOf ((j, q) :: rest) i = if j = i then q else amtOf rest i := by
  by_cases h : j = i <;> simp [amtOf, List.find?_cons, h]

theorem amtOf_not_mem (entries : List (Item × Int)) (i : Item)
    (h : i ∉ entries.map Prod.fst) : amtOf entries i = 0 := by
  induction entries with
  | nil => rfl
  | cons hd rest ih =>
    obtain ⟨j, q⟩ := hd
    simp only [List.map_cons, List.mem_cons] at h
    push_neg at h
    rw [amtOf_cons, if_neg (fun hji => h.1 hji.symm)]
    exact ih h.2

theorem updCount_same (c : Item → AgentID → Int) (i : Item) (a : AgentID)
    (v : Int) : updCount c i a v i a = v := by
  simp [updCount]

theorem updCount_other (c : Item → AgentID → Int) (i : Item) (a : AgentID)
    (v : Int) (j : Item) (b : AgentID) (h : ¬(j = i ∧ b = a)) :
    updCount c i a v j b = c j b := by
  simp only [updCount, if_neg h]

theorem applyAll_apply (f : Int → Int → Int) (hf : ∀ x : Int, f x 0 = x)
    (entries : List (Item × Int)) (ID : AgentID) (c : Item → AgentID → Int)
    (h : (entries.map Prod.fst).Nodup) (i : Item) (a : AgentID) :
    applyAll f entries ID c i a =
      if a = ID then f (c i a) (amtOf entries i) else c i a := by
  induction entries generalizing c with
  | nil =>
    simp only [applyAll, amtOf_nil]
    by_cases ha : a = ID <;> simp [ha, hf]
  | cons hd rest ih =>
    obtain ⟨j, q⟩ := hd
    simp only [List.map_cons, List.nodup_cons] at h
    rw [applyAll, ih _ h.2, amtOf_cons]
    by_cases hj : j = i
    · subst hj
      rw [amtOf_not_mem rest j h.1]
      by_cases ha : a = ID
      · subst ha
        rw [if_pos rfl, if_pos rfl, if_pos rfl, hf, updCount_same]
      · rw [if_neg ha, if_neg ha, updCount_other _ _ _ _ _ _ (fun hc => ha hc.2)]
    · have hne : ¬(i = j ∧ a = ID) := fun hc => hj hc.1.symm
      rw [if_neg hj, updCount_other _ _ _ _ _ _ hne]

/-! ### Claim theorems -/

/-- C1: for every recipe, agent, and state satisfying all preconditions
(enough time, every Requires entry held at its quantity, every Consumes
entry held at its quantity), the compiled operator succeeds, each item's
held count changes by exactly (produced amount − consumed amount) — so each
Consumes item drops by its declared amount, each Produces item rises by its
declared amount, and unrelated items are unchanged — the agent's time drops
by exactly the recipe's cost, and other agents are untouched. -/
theorem make_operator_success (rule : Rule) (ID : AgentID) (s : PState)
    (hC : ((rule.consumes.getD []).map Prod.fst).Nodup)
    (hP : (rule.produces.map Prod.fst).Nodup)
    (ht : rule.time ≤ s.time ID)
    (hreq : ∀ p ∈ rule.requires.getD [], p.2 ≤ s.count p.1 ID)
    (hcon : ∀ p ∈ rule.consumes.getD [], p.2 ≤ s.count p.1 ID) :
    ∃ s', make_operator rule ID s = (some s', s') ∧
      (∀ i, s'.count i ID =
        s.count i ID - amtOf (rule.consumes.getD []) i + amtOf rule.produces i) ∧
      (∀ i a, a ≠ ID → s'.count i a = s.count i a) ∧
      s'.time ID = s.time ID - rule.time ∧
      (∀ a, a ≠ ID → s'.time a = s.time a) := by
  have h1 : ¬ s.time ID < rule.time := not_lt.mpr ht
  have h2 : ¬ ((rule.requires.getD []).any
      (fun p => decide (s.count p.1 ID < p.2)) = true) := by
    simp only [List.any_eq_true, decide_eq_true_eq, not_exists, not_and, not_lt]
    exact hreq
  have h3 : ¬ ((rule.consumes.getD []).any
      (fun p => decide (s.count p.1 ID < p.2)) = true) := by
    simp only [List.any_eq_true, decide_eq_true_eq, not_exists, not_and, not_lt]
    exact hcon
  refine ⟨{ time := fun a => if a = ID then s.time ID - rule.time else s.time a
            count := applyAll (· + ·) rule.produces ID
              (applyAll (· - ·) (rule.consumes.getD []) ID s.count) },
          ?_, ?_, ?_, ?_, ?_⟩
  · rw [make_operator, if_neg h1, if_neg h2, if_neg h3]
  · intro i
    show applyAll (· + ·) rule.produces ID
        (applyAll (· - ·) (rule.consumes.getD []) ID s.count) i ID = _
    rw [applyAll_apply _ (fun x => add_zero x) _ _ _ hP,
      applyAll_apply _ (fun x => sub_zero x) _ _ _ hC]
    simp
  · intro i a ha
    show applyAll (· + ·) rule.produces ID
        (applyAll (· - ·) (rule.consumes.getD []) ID s.count) i a = _
    rw [applyAll_apply _ (fun x => add_zero x) _ _ _ hP,
      applyAll_apply _ (fun x => sub_zero x) _ _ _ hC, if_neg ha, if_neg ha]
  · show (if ID = ID then s.time ID - rule.time else s.time ID) = _
    rw [if_pos rfl]
  · intro a ha
    show (if a = ID then s.time ID - rule.time else s.time a) = _
    rw [if_neg ha]

/-- Witness for C1 at the concrete recipe `rule0` and state `s0`. -/
theorem make_operator_success_witness :
    ∃ s', make_operator rule0 "agent" s0 = (some s', s') ∧
      (∀ i, s'.count i "agent" =
        s0.count i "agent" - amtOf (rule0.consumes.getD []) i
          + amtOf rule0.produces i) ∧
      (∀ i a, a ≠ "agent" → s'.count i a = s0.count i a) ∧
      s'.time "agent" = s0.time "agent" - rule0.time ∧
      (∀ a, a ≠ "agent" → s'.time a = s0.time a) :=
  make_operator_success rule0 "agent" s0 (by decide) (by decide) (by decide)
    (by decide) (by decide)

/-- C2: whenever at least one precondition fails (insufficient time, or a
Requires entry held below its quantity, or a Consumes entry held below its
quantity), the compiled operator returns the failure indicator and the
post-call state is exactly the input state: nothing was mutated. -/
theorem make_operator_fail (rule : Rule) (ID : AgentID) (s : PState)
    (h : s.time ID < rule.time
      ∨ (∃ p ∈ rule.requires.getD [], s.count p.1 ID < p.2)
      ∨ (∃ p ∈ rule.consumes.getD [], s.count p.1 ID < p.2)) :
    make_operator rule ID s = (none, s) := by
  rw [make_operator]
  by_cases h1 : s.time ID < rule.time
  · rw [if_pos h1]
  · rw [if_neg h1]
    by_cases h2 : (rule.requires.getD []).any
        (fun p => decide (s.count p.1 ID < p.2)) = true
    · rw [if_pos h2]
    · rw [if_neg h2]
      have h3 : (rule.consumes.getD []).any
          (fun p => decide (s.count p.1 ID < p.2)) = true := by
        rcases h with h | h | h
        · exact absurd h h1
        · exact absurd (by simpa [List.any_eq_true] using h) h2
        · simpa [List.any_eq_true] using h
      rw [if_pos h3]

/-- Witness for C2: `rule0` applied in `s2` (no wood held) fails and the
post-call state is the input state. -/
theorem make_operator_fail_witness :
    make_operator rule0 "agent" s2 = (none, s2) :=
  make_operator_fail rule0 "agent" s2 (by decide)

theorem heuristic_unfold_have_enough (ID : AgentID) (s : PState)
    (a : AgentID) (item : Item) (num : Int) (tasks plan : List Task)
    (depth : Nat) (stack : List Task)
    (h1 : ¬ s.time ID < 0) (h2 : ¬ 400 < depth) :
    heuristic ID s (Task.have_enough a item num) tasks plan depth stack =
      (if Task.have_enough a item num ∈ stack then
        if num ≤ s.count item ID then false
        else if max (num * 3) 10 <
            ((stack.count (Task.have_enough a item num)) : Int) then true
        else false
      else false) := by
  unfold heuristic
  rw [if_neg h1, if_neg h2]

theorem heuristic_unfold_execute (ID : AgentID) (s : PState)
    (a : AgentID) (item : Item) (num : Int) (tasks plan : List Task)
    (depth : Nat) (stack : List Task)
    (h1 : ¬ s.time ID < 0) (h2 : ¬ 400 < depth) :
    heuristic ID s (Task.execute_production a item num) tasks plan depth stack =
      (if Task.execute_production a item num ∈ stack then
        if num ≤ s.count item ID then false
        else if max (num * 3) 10 <
            ((stack.count (Task.execute_production a item num)) : Int) then true
        else false
      else false) := by
  unfold heuristic
  rw [if_neg h1, if_neg h2]

/-- C3: for a `have_enough` or `execute_production` task for `(item, num)`
that already appears on the calling stack (with time not yet negative and
depth within the ceiling, so only the repetition rule can fire): if the held
quantity meets `num` the heuristic never prunes, and if it is below `num`
the heuristic prunes exactly when the number of occurrences of the identical
task descriptor on the calling stack exceeds `max (3 * num) 10`. -/
theorem heuristic_cycle (ID : AgentID) (s : PState) (ID2 : AgentID)
    (item : Item) (num : Int) (t : Task) (tasks plan : List Task)
    (depth : Nat) (stack : List Task)
    (hkind : t = Task.have_enough ID2 item num
      ∨ t = Task.execute_production ID2 item num)
    (htime : 0 ≤ s.time ID) (hdepth : depth ≤ 400) (hmem : t ∈ stack) :
    (num ≤ s.count item ID → heuristic ID s t tasks plan depth stack = false) ∧
    (s.count item ID < num →
      (heuristic ID s t tasks plan depth stack = true ↔
        max (3 * num) 10 < (stack.count t : Int))) := by
  have h1 : ¬ s.time ID < 0 := not_lt.mpr htime
  have h2 : ¬ 400 < depth := not_lt.mpr hdepth
  have hcomm : (3 : Int) * num = num * 3 := by ring
  rcases hkind with h | h <;> subst h
  · rw [heuristic_unfold_have_enough ID s ID2 item num tasks plan depth stack h1 h2,
      if_pos hmem]
    constructor
    · intro hge
      rw [if_pos hge]
    · intro hlt
      rw [if_neg (not_le.mpr hlt), hcomm]
      by_cases hc : max (num * 3) 10 <
          ((stack.count (Task.have_enough ID2 item num)) : Int)
      · rw [if_pos hc]
        simp [hc]
      · rw [if_neg hc]
        simp [hc]
  · rw [heuristic_unfold_execute ID s ID2 item num tasks plan depth stack h1 h2,
      if_pos hmem]
    constructor
    · intro hge
      rw [if_pos hge]
    · intro hlt
      rw [if_neg (not_le.mpr hlt), hcomm]
      by_cases hc : max (num * 3) 10 <
          ((stack.count (Task.execute_production ID2 item num)) : Int)
      · rw [if_pos hc]
        simp [hc]
      · rw [if_neg hc]
        simp [hc]

/-- Witness for C3: needing 1 wood with 0 held and 12 identical tasks on the
stack (12 > max(3,10)), the heuristic prunes. -/
theorem heuristic_cycle_witness :
    heuristic "agent" sHeu t3 [] [] 0 stack3 = true :=
  ((heuristic_cycle "agent" sHeu "agent" "wood" 1 t3 [] [] 0 stack3
      (Or.inl rfl) (by decide) (by decide) (by decide)).2
    (by decide)).mpr (by decide)

/-- C5 (amended): tasks of any kind other than `have_enough` /
`execute_production` are never pruned, provided the two kind-independent
rules do not fire: the remaining time is non-negative and the depth is
within the ceiling of 400. -/
theorem heuristic_other_kinds (ID : AgentID) (s : PState) (t : Task)
    (tasks plan : List Task) (depth : Nat) (stack : List Task)
    (htime : 0 ≤ s.time ID) (hdepth : depth ≤ 400)
    (hkind : (∃ a i, t = Task.produce a i) ∨ (∃ n a, t = Task.op n a)) :
    heuristic ID s t tasks plan depth stack = false := by
  have h1 : ¬ s.time ID < 0 := not_lt.mpr htime
  have h2 : ¬ 400 < depth := not_lt.mpr hdepth
  rcases hkind with ⟨a, i, h⟩ | ⟨n, a, h⟩ <;> subst h <;>
  · unfold heuristic
    rw [if_neg h1, if_neg h2]

/-- Witness for C5's amended theorem: a `produce` task at depth 0 with
positive time is not pruned. -/
theorem heuristic_other_kinds_witness :
    heuristic "agent" sHeu (Task.produce "agent" "wood") [] [] 0 [] = false :=
  heuristic_other_kinds "agent" sHeu (Task.produce "agent" "wood") [] [] 0 []
    (by decide) (by decide) (Or.inl ⟨"agent", "wood", rfl⟩)

/-- Counterexample to C5 as stated: the claim says non-`have_enough`,
non-`execute_production` tasks are never pruned regardless of state, depth,
or calling stack, but a `produce` task at depth 401 is pruned by the depth
rule. -/
theorem heuristic_other_kinds_counterexample :
    heuristic "agent" sHeu (Task.produce "agent" "wood") [] [] 401 [] = true := by
  decide

theorem classifyMethods_eq {M : Type} (ID : AgentID) (s : PState)
    (curr_task : Task) (getSub : M → PState → Task → Option (List Task))
    (l : List M) :
    classifyMethods ID s curr_task getSub l =
      (l.filter (fun m => methodReady ID s curr_task getSub m),
       l.filter (fun m => methodComputable s curr_task getSub m
          && !(methodReady ID s curr_task getSub m))) := by
  induction l with
  | nil => rfl
  | cons m rest ih =>
    rw [classifyMethods, ih]
    rcases hg : getSub m s curr_task with _ | subtasks
    · simp [List.filter_cons, methodReady, methodComputable, hg]
    · by_cases hr : isReady ID s subtasks = true
      · simp [List.filter_cons, methodReady, methodComputable, hg, hr]
      · rw [Bool.not_eq_true] at hr
        simp [List.filter_cons, methodReady, methodComputable, hg, hr]

/-- C4 (amended): for method lists of length at least two, the reordering
returns the computable-and-ready methods first (in their existing relative
order), followed by the computable-but-not-ready methods (in their existing
relative order); methods whose subtask list cannot be computed are REMOVED
from the returned list, not placed after the others. Lists of length at
most one are returned unchanged. -/
theorem reorder_methods_spec {M : Type} (ID : AgentID) (s : PState)
    (curr_task : Task) (tasks plan : List Task) (depth : Nat)
    (calling_stack : List Task)
    (getSub : M → PState → Task → Option (List Task)) (methods : List M) :
    reorder_methods ID s curr_task tasks plan depth calling_stack getSub
        methods =
      if methods.length ≤ 1 then methods
      else
        methods.filter (fun m => methodReady ID s curr_task getSub m)
          ++ methods.filter (fun m => methodComputable s curr_task getSub m
              && !(methodReady ID s curr_task getSub m)) := by
  rw [reorder_methods, classifyMethods_eq]

/-- Counterexample to C4 as stated: with two candidate methods of which the
first is uncomputable (the subtask previewer yields the failure indicator),
the returned list is `[1]`, which is not a permutation of the input `[0, 1]`
— the uncomputable method was removed, not merely ordered last. -/
theorem reorder_methods_counterexample :
    ¬ List.Perm (reorder_methods "agent" sHeu (Task.produce "agent" "wood")
        [] [] 0 [] getSub4 [0, 1]) [0, 1] := by
  have h : reorder_methods "agent" sHeu (Task.produce "agent" "wood")
      [] [] 0 [] getSub4 [0, 1] = [1] := rfl
  rw [h]
  intro hp
  have := hp.length_eq
  simp at this

/-- C9: a method list in which every method is computable and every
`have_enough` subtask it contains is already satisfied (fully ready) is
returned in the same relative order, unchanged. -/
theorem reorder_methods_ready_id {M : Type} (ID : AgentID) (s : PState)
    (curr_task : Task) (tasks plan : List Task) (depth : Nat)
    (calling_stack : List Task)
    (getSub : M → PState → Task → Option (List Task)) (methods : List M)
    (h : ∀ m ∈ methods, methodReady ID s curr_task getSub m = true) :
    reorder_methods ID s curr_task tasks plan depth calling_stack getSub
      methods = methods := by
  rw [reorder_methods, classifyMethods_eq]
  by_cases hl : methods.length ≤ 1
  · rw [if_pos hl]
  · rw [if_neg hl]
    have hfilter : methods.filter
        (fun m => methodReady ID s curr_task getSub m) = methods :=
      List.filter_eq_self.mpr h
    have hempty : methods.filter
        (fun m => methodComputable s curr_task getSub m
          && !(methodReady ID s curr_task getSub m)) = [] := by
      rw [List.filter_eq_nil_iff]
      intro m hm
      rw [h m hm]
      simp
    rw [hfilter, hempty, List.append_nil]

/-- Witness for C9: two methods whose previewed subtask lists are both empty
(hence ready) come back in the same order. -/
theorem reorder_methods_ready_id_witness :
    reorder_methods "agent" sHeu (Task.produce "agent" "wood") [] [] 0 []
      getSub9 [0, 1] = [0, 1] :=
  reorder_methods_ready_id "agent" sHeu (Task.produce "agent" "wood") [] [] 0 []
    getSub9 [0, 1] (by decide)

/-- C7: a compiled production method short-circuits to the empty subtask
sequence whenever the recipe produces an item of the designated durable
class (the benches/furnaces/pickaxes list) that the agent already holds in
positive quantity. -/
theorem make_method_durable_shortcircuit (name : String) (rule : Rule)
    (ID : AgentID) (s : PState)
    (h : ∃ p ∈ rule.produces, p.1 ∈ durables ∧ 0 < s.count p.1 ID) :
    make_method name rule ID s = [] := by
  rw [make_method, if_pos]
  simp only [List.any_eq_true, Bool.and_eq_true, decide_eq_true_eq]
  obtain ⟨p, hp, hd, hc⟩ := h
  exact ⟨p, hp, hd, hc⟩

/-- Witness for C7: a bench recipe in a state already holding one bench
yields the empty subtask sequence. -/
theorem make_method_durable_shortcircuit_witness :
    make_method "craft bench" ruleBench "agent" sBench = [] :=
  make_method_durable_shortcircuit "craft bench" ruleBench "agent" sBench
    (by decide)

/-- C8: the `execute_production` bridge decomposes, in fixed order, into
first a `produce item` task and then a fresh `have_enough` task for the
same item and quantity, for every state, agent, item and quantity. -/
theorem execute_production_decomposition (s : PState) (ID : AgentID)
    (item : Item) (num : Int) :
    execute_production s ID item num =
      [Task.produce ID item, Task.have_enough ID item num] := rfl

/-- C10: the durable class is the fixed five-element list, not the domain
file's Tools section (which `make_method` never receives): a method compiled
from a recipe none of whose produced items lies in that list never
short-circuits to the empty sequence — its subtask list always ends in the
primitive-action task — whatever the state holds. -/
theorem make_method_no_shortcircuit (name : String) (rule : Rule)
    (ID : AgentID) (s : PState)
    (h : ∀ p ∈ rule.produces, p.1 ∉ durables) :
    make_method name rule ID s ≠ [] := by
  rw [make_method, if_neg]
  · simp
  · simp only [List.any_eq_true, Bool.and_eq_true, decide_eq_true_eq, not_exists,
      not_and]
    intro p hp hd
    exact absurd hd (h p hp)

/-- Witness for C10: the plank recipe, in a state already holding 5 plank
(as if plank had been declared a tool), still emits a non-empty subtask
list. -/
theorem make_method_no_shortcircuit_witness :
    make_method "punch plank" rulePlank "agent" sPlank ≠ [] :=
  make_method_no_shortcircuit "punch plank" rulePlank "agent" sPlank
    (by decide)

theorem lookupL_base (l : List Item) (i : Item) (h : i ∈ l) :
    lookupL (l.map fun j => (j, (0 : Int))) i = some 0 := by
  induction l with
  | nil => cases h
  | cons j rest ih =>
    rcases List.mem_cons.mp h with h | h
    · subst h
      simp [lookupL, List.find?_cons]
    · by_cases hj : j = i
      · subst hj
        simp [lookupL, List.find?_cons]
      · rw [lookupL, List.map_cons, List.find?_cons_of_neg _ (by simpa using hj)]
        exact ih h

theorem any_base (l : List Item) (i : Item) (h : i ∈ l) :
    ((l.map fun j => (j, (0 : Int))).any fun p => p.1 = i) = true := by
  rw [List.any_eq_true]
  exact ⟨(i, 0), List.mem_map.mpr ⟨i, h, rfl⟩, by simp⟩

theorem setEntry_spec (l : List (Item × Int)) (i : Item) (v : Int)
    (h : (l.any fun p => p.1 = i) = true) :
    ∃ l', setEntry l i v = some l' ∧
      lookupL l' i = some v ∧
      (∀ j, j ≠ i → lookupL l' j = lookupL l j) ∧
      (∀ j, (l'.any fun p => p.1 = j) = (l.any fun p => p.1 = j)) := by
  refine ⟨l.map (fun p => if p.1 = i then (i, v) else p), ?_, ?_, ?_, ?_⟩
  · rw [setEntry, if_pos h]
  · rw [lookupL, List.find?_map]
    have hpred : ((fun p : Item × Int => decide (p.1 = i)) ∘
        fun p : Item × Int => if p.1 = i then (i, v) else p) =
        fun p : Item × Int => decide (p.1 = i) := by
      funext p
      by_cases hp : p.1 = i <;> simp [hp]
    rw [hpred]
    have hsome : (l.find? fun p : Item × Int => decide (p.1 = i)).isSome := by
      rw [List.find?_isSome]
      obtain ⟨x, hx, hxi⟩ := List.any_eq_true.mp h
      exact ⟨x, hx, hxi⟩
    obtain ⟨q, hq⟩ := Option.isSome_iff_exists.mp hsome
    have hqi : q.1 = i := by simpa using List.find?_some hq
    rw [hq]
    simp [hqi]
  · intro j hj
    rw [lookupL, lookupL, List.find?_map]
    have hpred : ((fun p : Item × Int => decide (p.1 = j)) ∘
        fun p : Item × Int => if p.1 = i then (i, v) else p) =
        fun p : Item × Int => decide (p.1 = j) := by
      funext p
      by_cases hp : p.1 = i <;> simp [hp]
    rw [hpred]
    rcases hq : l.find? (fun p : Item × Int => decide (p.1 = j)) with _ | q
    · rfl
    · have hqj : q.1 = j := by simpa using List.find?_some hq
      have : ¬ q.1 = i := by rw [hqj]; exact hj
      simp [this]
  · intro j
    rw [List.any_map]
    congr 1
    funext p
    by_cases hp : p.1 = i <;> simp [hp]

theorem applyInitial_spec (updates : List (Item × Int))
    (st : List (Item × Int))
    (hkeys : ∀ p ∈ updates, (st.any fun q => q.1 = p.1) = true)
    (hnodup : (updates.map Prod.fst).Nodup) :
    ∃ st', applyInitial updates st = some st' ∧
      (∀ j, lookupL st' j =
        if j ∈ updates.map Prod.fst then some (amtOf updates j)
        else lookupL st j) ∧
      (∀ j, (st'.any fun p => p.1 = j) = (st.any fun p => p.1 = j)) := by
  induction updates generalizing st with
  | nil =>
    refine ⟨st, rfl, ?_, fun _ => rfl⟩
    intro j
    simp
  | cons hd rest ih =>
    obtain ⟨i, n⟩ := hd
    simp only [List.map_cons, List.nodup_cons] at hnodup
    obtain ⟨st1, hset, hlook1, hother1, hany1⟩ :=
      setEntry_spec st i n (hkeys (i, n) (List.mem_cons_self _ _))
    have hkeys1 : ∀ p ∈ rest, (st1.any fun q => q.1 = p.1) = true := by
      intro p hp
      rw [hany1]
      exact hkeys p (List.mem_cons_of_mem _ hp)
    obtain ⟨st', happ, hlook, hany⟩ := ih st1 hkeys1 hnodup.2
    refine ⟨st', ?_, ?_, ?_⟩
    · rw [applyInitial, hset]
      exact happ
    · intro j
      rw [hlook j]
      by_cases hji : j = i
      · subst hji
        rw [if_neg hnodup.1, hlook1,
          if_pos (show j ∈ List.map Prod.fst ((j, n) :: rest) by simp),
          amtOf_cons, if_pos rfl]
      · by_cases hjr : j ∈ rest.map Prod.fst
        · rw [if_pos hjr,
            if_pos (show j ∈ List.map Prod.fst ((i, n) :: rest) by
              simp [List.map_cons, hjr]),
            amtOf_cons, if_neg (show ¬ i = j from fun hij => hji hij.symm)]
        · rw [if_neg hjr, hother1 j hji,
            if_neg (show j ∉ List.map Prod.fst ((i, n) :: rest) by
              simp [List.map_cons, hjr, hji])]
    · intro j
      rw [hany j, hany1 j]

/-- C6 (amended): after setup, every item/tool name DECLARED in the Items or
Tools sections has an entry in the count mapping, holding its
initial-inventory quantity when listed there and defaulting to 0 otherwise;
consequently a name referenced in the recipes, goals, or initial inventory
is guaranteed an entry exactly when it is also declared in Items or Tools.
(Hypotheses: initial-inventory names are declared — otherwise setup itself
faults — and, as dictionary keys, are duplicate-free.) -/
theorem set_up_state_entries (data : Data)
    (hinit : ∀ p ∈ data.problem.initial, p.1 ∈ data.items ++ data.tools)
    (hnodup : (data.problem.initial.map Prod.fst).Nodup) :
    ∃ st, set_up_state data = some st ∧
      st.time = data.problem.timeBudget ∧
      (∀ i, i ∈ data.items ++ data.tools →
        lookupCount st i = some (amtOf data.problem.initial i)) ∧
      (∀ i ∈ referencedItems data, i ∈ data.items ++ data.tools →
        ∃ v, lookupCount st i = some v) := by
  have hkeys : ∀ p ∈ data.problem.initial,
      ((((data.items ++ data.tools).dedup).map fun j => (j, (0 : Int))).any
        fun q => q.1 = p.1) = true := by
    intro p hp
    exact any_base _ _ (List.mem_dedup.mpr (hinit p hp))
  obtain ⟨cnt, happ, hlook, _⟩ := applyInitial_spec data.problem.initial
    (((data.items ++ data.tools).dedup).map fun j => (j, (0 : Int)))
    hkeys hnodup
  have hmain : ∀ i, i ∈ data.items ++ data.tools →
      lookupL cnt i = some (amtOf data.problem.initial i) := by
    intro i hi
    rw [hlook i]
    by_cases hmem : i ∈ data.problem.initial.map Prod.fst
    · rw [if_pos hmem]
    · rw [if_neg hmem, amtOf_not_mem _ _ hmem,
        lookupL_base _ _ (List.mem_dedup.mpr hi)]
  refine ⟨{ time := data.problem.timeBudget, count := cnt }, ?_, rfl, ?_, ?_⟩
  · rw [set_up_state, happ]
  · exact hmain
  · intro i _ hdecl
    exact ⟨amtOf data.problem.initial i, hmain i hdecl⟩

/-- Witness for C6's amended theorem at the concrete well-formed domain
`data1`. -/
theorem set_up_state_entries_witness :
    ∃ st, set_up_state data1 = some st ∧
      st.time = data1.problem.timeBudget ∧
      (∀ i, i ∈ data1.items ++ data1.tools →
        lookupCount st i = some (amtOf data1.problem.initial i)) ∧
      (∀ i ∈ referencedItems data1, i ∈ data1.items ++ data1.tools →
        ∃ v, lookupCount st i = some v) :=
  set_up_state_entries data1 (by decide) (by decide)

/-- Counterexample to C6 as stated: in `data0` the goal references "wood",
which is declared neither in Items nor in Tools; setup succeeds yet the
count mapping has no entry for "wood" at all (rather than an entry
defaulting to 0). -/
theorem set_up_state_counterexample :
    set_up_state data0 = some { time := 10, count := [] } ∧
      "wood" ∈ referencedItems data0 ∧
      lookupCount { time := 10, count := [] } "wood" = none := by
  refine ⟨rfl, ?_, rfl⟩
  decide

end AutoHTN
